import Mathlib

/-!
# go-chat: a shallow embedding of the chat server and client

The server (`chan_chat_server.go`) keeps two pieces of shared state: the
process-local table `clients : map[net.Conn]*User` and the Redis hash
`"clients"` (name -> id).  Sessions write replies to their connection and
publish chat lines on the topic `chat_messages`; `broadcastMessages` copies
every payload to every connection of the table.

Strings are lists of characters.  Blocking calls (`ReadString`) and calls that
leave the process (Redis commands) take their outcome as an explicit argument:
the bytes and error flag a read returned, and whether a Redis command reached
the store or failed.  Go's unspecified map iteration order is an explicit argument too.
The server's diagnostic prints on its own console are not part of the state.
-/

namespace GoChat

abbrev Str := List Char

/-! ## Library functions used by the source -/

/-- Go `unicode.IsSpace`: the code points with the White_Space property. -/
def isSpace (c : Char) : Bool :=
  let n := c.toNat
  (0x09 ≤ n && n ≤ 0x0d) || n == 0x20 || n == 0x85 || n == 0xa0 || n == 0x1680 ||
  (0x2000 ≤ n && n ≤ 0x200a) || n == 0x2028 || n == 0x2029 || n == 0x202f ||
  n == 0x205f || n == 0x3000

/-- Go `strings.TrimSpace`: drop leading and trailing white space. -/
def TrimSpace (s : Str) : Str :=
  ((s.dropWhile isSpace).reverse.dropWhile isSpace).reverse

/-- Go `strings.HasPrefix`. -/
def HasPrefix : Str → Str → Bool
  | _, [] => true
  | [], _ :: _ => false
  | a :: s, b :: p => a == b && HasPrefix s p

/-- Go `strings.Split(s, sep)` for a separator of one character: the pieces
between the occurrences of `sep`, always at least one piece. -/
def Split (s : Str) (sep : Char) : List Str :=
  match s with
  | [] => [[]]
  | a :: rest =>
    if a = sep then [] :: Split rest sep
    else
      match Split rest sep with
      | [] => [[a]]
      | p :: ps => (a :: p) :: ps

/-! ## Go maps as association lists -/

/-- Map lookup `m[k]`, with the `exists` flag as the option. -/
def mapGet {κ ν : Type} [DecidableEq κ] (m : List (κ × ν)) (k : κ) : Option ν :=
  match m with
  | [] => none
  | (k', v) :: rest => if k' = k then some v else mapGet rest k

/-- Map deletion `delete(m, k)`. -/
def mapDel {κ ν : Type} [DecidableEq κ] (m : List (κ × ν)) (k : κ) : List (κ × ν) :=
  m.filter (fun e => decide (e.1 ≠ k))

/-- Map assignment `m[k] = v`: the key is bound to `v` alone afterwards. -/
def mapSet {κ ν : Type} [DecidableEq κ] (m : List (κ × ν)) (k : κ) (v : ν) : List (κ × ν) :=
  (k, v) :: mapDel m k

/-- The keys of a map, in storage order. -/
def mapKeys {κ ν : Type} (m : List (κ × ν)) : List κ := m.map Prod.fst

/-! ## Data model -/

/-- The source's `User`. -/
structure User where
  ID : Str
  Name : Str
deriving DecidableEq

/-- A `net.Conn`: the identity of the connection object and its remote address. -/
structure Conn where
  fd : Nat
  remoteAddr : Str
deriving DecidableEq

/-- The state the server functions read and write. -/
structure Server where
  /-- The global `clients` map; a value may be the nil pointer. -/
  clients : List (Conn × Option User)
  /-- The Redis hash `"clients"`: field (name) -> value (id). -/
  redis : List (Str × Str)
  /-- Bytes written to connections, oldest write first. -/
  sent : List (Conn × Str)
  /-- Calls of `Publish`, as (topic, payload), oldest first. -/
  published : List (Str × Str)
  /-- Connections on which `Close` was called. -/
  closed : List Conn
deriving DecidableEq

/-- The error value of a Redis reply: `redis.Nil` (field absent) or another
error, with the text `Error()` returns for it. -/
inductive RedisError where
  | Nil
  | Other (text : Str)
deriving DecidableEq

/-- The fate of one Redis command: `none` when it reached the store and was
answered, `some text` when it failed with an error of that text. -/
abbrev Fault := Option Str

/-- The result of `HGet(ctx, "clients", field).Result()`. -/
def HGet (store : List (Str × Str)) (field : Str) (fault : Fault) : Str × Option RedisError :=
  match fault with
  | none =>
    match mapGet store field with
    | some v => (v, none)
    | none => ([], some RedisError.Nil)
  | some text => ([], some (RedisError.Other text))

/-- The effect and error of `HSet(ctx, "clients", field, value)`. -/
def HSet (store : List (Str × Str)) (field value : Str) (fault : Fault) :
    List (Str × Str) × Option RedisError :=
  match fault with
  | none => (mapSet store field value, none)
  | some text => (store, some (RedisError.Other text))

/-- The effect of `HDel(ctx, "clients", field)`. -/
def HDel (store : List (Str × Str)) (field : Str) (fault : Fault) : List (Str × Str) :=
  match fault with
  | none => mapDel store field
  | some _ => store

/-- The result of `HGetAll(ctx, "clients").Result()`. -/
def HGetAll (store : List (Str × Str)) (fault : Fault) :
    List (Str × Str) × Option RedisError :=
  match fault with
  | none => (store, none)
  | some text => ([], some (RedisError.Other text))

/-! ## The server -/

/-- The prompt of lines 86 and 100. -/
def promptName : Str := "Enter your name: ".toList

/-- The reply of line 99. -/
def errNameTaken : Str := "Error: Name already taken, please choose another.".toList

/-- The topic of `Publish` and `Subscribe`. -/
def chatTopic : Str := "chat_messages".toList

/-- The source's `generateUserID`: the remote address of the connection. -/
def generateUserID (conn : Conn) : Str := conn.remoteAddr

/-- The source's `sendPrompt`: `fmt.Fprintln(conn, message)`. -/
def sendPrompt (s : Server) (conn : Conn) (message : Str) : Server :=
  { s with sent := s.sent ++ [(conn, message ++ ['\n'])] }

/-- The call `conn.Close()`. -/
def connClose (s : Server) (conn : Conn) : Server :=
  { s with closed := s.closed ++ [conn] }

/-- The source's `addClientToRedis`; an error is only logged. -/
def addClientToRedis (s : Server) (user : User) (fault : Fault) : Server :=
  { s with redis := (HSet s.redis user.Name user.ID fault).1 }

/-- The source's `removeClientFromRedis`; the reply of `HDel` is discarded. -/
def removeClientFromRedis (s : Server) (user : User) (fault : Fault) : Server :=
  { s with redis := HDel s.redis user.Name fault }

/-- The source's `removeClient`. -/
def removeClient (s : Server) (conn : Conn) (fault : Fault) : Server :=
  match mapGet s.clients conn with
  | some ou =>
    let s1 := match ou with
      | some user => removeClientFromRedis s user fault
      | none => s
    { s1 with clients := mapDel s1.clients conn }
  | none => s

/-- The text of a Redis error, `err.Error()`. -/
def RedisError.Error : RedisError → Str
  | RedisError.Nil => "redis: nil".toList
  | RedisError.Other text => text

/-- The source's `listUsers`.  `order` is the sequence in which `range users`
yields the names of the map that `HGetAll` returned. -/
def listUsers (s : Server) (conn : Conn) (fault : Fault) (order : List Str) : Server :=
  match HGetAll s.redis fault with
  | (_, some err) => sendPrompt s conn ("Error fetching users from Redis: ".toList ++ err.Error)
  | (users, none) =>
    if users.length = 0 then sendPrompt s conn "No users online.".toList
    else
      let userList := order.foldl (fun acc name => acc ++ (name ++ " ".toList)) []
      sendPrompt s conn ("Online users: ".toList ++ userList)

/-- The source's `handleCommand`. -/
def handleCommand (s : Server) (conn : Conn) (command : Str) (get put : Fault)
    (order : List Str) : Server :=
  if command = "/online".toList then listUsers s conn get order
  else if command = "/exit".toList then
    connClose (removeClient (sendPrompt s conn "You have exited the chat.".toList) conn put) conn
  else sendPrompt s conn "Unknown command.".toList

/-- The source's `broadcastMessages`, for one payload: `order` is the sequence
in which `range clients` yields the connections. -/
def broadcastPayload (s : Server) (payload : Str) (order : List Conn) : Server :=
  order.foldl (fun acc client => { acc with sent := acc.sent ++ [(client, payload)] }) s

/-- The source's `broadcastMessages`: every payload of the subscription, each
with the iteration order of its pass over `clients`. -/
def broadcastMessages (s : Server) (msgs : List (Str × List Conn)) : Server :=
  msgs.foldl (fun acc m => broadcastPayload acc m.1 m.2) s

/-! ### `handleClient` -/

/-- What the environment hands to one loop iteration of a session. -/
structure Turn where
  /-- The string `ReadString` returned. -/
  data : Str
  /-- Whether `ReadString` returned an error. -/
  err : Bool
  /-- The fate of the Redis read of this iteration (`HGet`, `HGetAll`). -/
  get : Fault
  /-- The fate of the Redis write of this iteration (`HSet`, `HDel`). -/
  put : Fault
  /-- The iteration order of `range users`, when `/online` is served. -/
  order : List Str
deriving DecidableEq

/-- The reply of line 117: `fmt.Sprintf("Welcome, %s!-%s", name, user.ID)`. -/
def welcome (name id : Str) : Str :=
  "Welcome, ".toList ++ name ++ "!-".toList ++ id

/-- The chat payload of line 136: `fmt.Sprintf("%s-%s: %s\n", user.ID, name, msg)`. -/
def formattedMessage (id name msg : Str) : Str :=
  id ++ "-".toList ++ name ++ ": ".toList ++ msg ++ ['\n']

/-- Lines 90-107 of the name loop: read, trim, look the name up.  `none` is the
`continue` branch; `some user` is the user built when the branch is not taken.
The error of `ReadString` is discarded by the source. -/
def checkName (s : Server) (conn : Conn) (data : Str) (fault : Fault) : Server × Option User :=
  let name := TrimSpace data
  let userID := generateUserID conn
  match HGet s.redis name fault with
  | (existingID, err) =>
    if err = none ∧ existingID ≠ [] then
      (sendPrompt (sendPrompt s conn errNameTaken) conn promptName, none)
    else
      (s, some { ID := userID, Name := name })

/-- One iteration of the name loop (lines 90-111). -/
def nameIter (s : Server) (conn : Conn) (t : Turn) : Server × Option User :=
  match checkName s conn t.data t.get with
  | (s1, none) => (s1, none)
  | (s1, some user) => (addClientToRedis s1 user t.put, some user)

/-- The name loop (lines 89-112) over the reads that are available; `none`
when the reads run out with the loop still going. -/
def nameLoop (s : Server) (conn : Conn) : List Turn → Server × Option User
  | [] => (s, none)
  | t :: ts =>
    match nameIter s conn t with
    | (s1, some user) => (s1, some user)
    | (s1, none) => nameLoop s1 conn ts

/-- Lines 114-117: insert into `clients` and send the welcome reply.  The local
`name` is `user.Name` (line 106). -/
def enterActive (s : Server) (conn : Conn) (user : User) : Server :=
  sendPrompt { s with clients := mapSet s.clients conn (some user) } conn
    (welcome user.Name user.ID)

/-- One iteration of the message loop (lines 120-139); the flag is false when
the function returns. -/
def activeIter (s : Server) (conn : Conn) (user : User) (t : Turn) : Server × Bool :=
  if t.err then (s, false)
  else
    let msg := TrimSpace t.data
    if msg = [] then (s, true)
    else if HasPrefix msg "/".toList then (handleCommand s conn msg t.get t.put t.order, true)
    else
      ({ s with published :=
          s.published ++ [(chatTopic, formattedMessage user.ID user.Name msg)] }, true)

/-- The deferred function of `handleClient` (lines 76-79). -/
def deferred (s : Server) (conn : Conn) (fault : Fault) : Server :=
  removeClient (connClose s conn) conn fault

/-- Where a session stands in `handleClient`.  `reserving` and `entering` are
the points between the registry read, the registry write and the table
insert, where other sessions can run. -/
inductive Pc where
  /-- In the name loop, at `ReadString` (line 90). -/
  | awaitingName
  /-- The lookup said the name is free; `addClientToRedis` is next (line 110). -/
  | reserving (user : User)
  /-- The name is written; the insert into `clients` is next (line 114). -/
  | entering (user : User)
  /-- In the message loop, at `ReadString` (line 120). -/
  | active (user : User)
  /-- The function has returned and its deferred call has run. -/
  | terminated
deriving DecidableEq

/-- One atomic step of a session. -/
def sessionStep (s : Server) (conn : Conn) (pc : Pc) (t : Turn) : Server × Pc :=
  match pc with
  | Pc.awaitingName =>
    match checkName s conn t.data t.get with
    | (s1, none) => (s1, Pc.awaitingName)
    | (s1, some user) => (s1, Pc.reserving user)
  | Pc.reserving user => (addClientToRedis s user t.put, Pc.entering user)
  | Pc.entering user => (enterActive s conn user, Pc.active user)
  | Pc.active user =>
    match activeIter s conn user t with
    | (s1, true) => (s1, Pc.active user)
    | (s1, false) => (deferred s1 conn t.put, Pc.terminated)
  | Pc.terminated => (s, Pc.terminated)

/-- A session run on its own over the reads it gets, step after step. -/
def sessionRun (s : Server) (conn : Conn) (pc : Pc) : List Turn → Server × Pc
  | [] => (s, pc)
  | t :: ts =>
    match sessionStep s conn pc t with
    | (s1, pc1) => sessionRun s1 conn pc1 ts

/-- The server with its running sessions. -/
structure Sys where
  server : Server
  sessions : List (Conn × Pc)
deriving DecidableEq

/-- The server at start: empty table, empty registry, nothing written. -/
def Sys.init : Sys :=
  { server := { clients := [], redis := [], sent := [], published := [], closed := [] },
    sessions := [] }

/-- What the scheduler does next: a new connection is accepted and
`handleClient` starts on it, or a running session takes its next atomic step. -/
inductive Event where
  | accept (conn : Conn)
  | step (conn : Conn) (t : Turn)
deriving DecidableEq

/-- One step of the interleaving.  On `accept` the session starts and sends
the first prompt (line 86). -/
def Sys.step (sys : Sys) (ev : Event) : Sys :=
  match ev with
  | Event.accept conn =>
    match mapGet sys.sessions conn with
    | none =>
      { server := sendPrompt sys.server conn promptName,
        sessions := mapSet sys.sessions conn Pc.awaitingName }
    | some _ => sys
  | Event.step conn t =>
    match mapGet sys.sessions conn with
    | none => sys
    | some pc =>
      match sessionStep sys.server conn pc t with
      | (s1, pc1) => { server := s1, sessions := mapSet sys.sessions conn pc1 }

/-- A schedule run from a state. -/
def Sys.run (sys : Sys) (sched : List Event) : Sys :=
  sched.foldl Sys.step sys

/-- No two distinct connections of the table carry the same name. -/
def UniqueNames (s : Server) : Prop :=
  ∀ c1 c2 u1 u2, c1 ≠ c2 → mapGet s.clients c1 = some (some u1) →
    mapGet s.clients c2 = some (some u2) → u1.Name ≠ u2.Name

/-- The writes a connection received, oldest first. -/
def writesTo (s : Server) (conn : Conn) : List Str :=
  (s.sent.filter (fun e => decide (e.1 = conn))).map Prod.snd

/-- A turn that delivers the line `data` with every Redis command answered. -/
def lineTurn (data : Str) : Turn :=
  { data := data, err := false, get := none, put := none, order := [] }

/-- A turn whose read fails at end of input: empty string and an error. -/
def eofTurn : Turn :=
  { data := [], err := true, get := none, put := none, order := [] }

/-! ## The client -/

/-- The state of the client's receive loop: the global `clientID` and what was
printed on standard output, oldest first. -/
structure Client where
  clientID : Str
  stdout : List Str
deriving DecidableEq

/-- The client before any line arrived: `clientID` is the empty string. -/
def Client.init : Client := { clientID := [], stdout := [] }

/-- One iteration of the receive loop of the client's `main` (lines 53-72) on a
line `raw` that `ReadString` returned without error.  `none` is the run-time
panic of `parts[1]` when the welcome line holds no `-`. -/
def clientRecv (cl : Client) (raw : Str) : Option Client :=
  let msg := TrimSpace raw
  if HasPrefix msg "Welcome".toList then
    let parts := Split msg '-'
    match parts[1]?, parts[0]? with
    | some p1, some p0 =>
      some { clientID := p1, stdout := cl.stdout ++ [p0 ++ ['\n'], ":$ ".toList] }
    | _, _ => none
  else if !HasPrefix msg (cl.clientID ++ "-".toList) then
    let parts := Split msg '-'
    if parts.length > 1 then
      match parts[1]? with
      | some p1 =>
        some { cl with stdout := cl.stdout ++ ["-> ".toList ++ p1 ++ ['\n'], ":$ ".toList] }
      | none => none
    else
      some { cl with stdout := cl.stdout ++ [msg ++ ['\n'], ":$ ".toList] }
  else
    some { cl with stdout := cl.stdout ++ [":$ ".toList] }

/-- The receive loop over the lines read, stopping at a panic. -/
def clientRecvAll (cl : Client) : List Str → Option Client
  | [] => some cl
  | raw :: rest =>
    match clientRecv cl raw with
    | some cl1 => clientRecvAll cl1 rest
    | none => none

/-- The client suppresses the line `raw`: the iteration prints the prompt and
nothing else. -/
def Suppressed (cl : Client) (raw : Str) : Prop :=
  clientRecv cl raw = some { cl with stdout := cl.stdout ++ [":$ ".toList] }

instance (cl : Client) (raw : Str) : Decidable (Suppressed cl raw) := by
  unfold Suppressed
  infer_instance

/-! ## Predicates of the statements and concrete states -/

/-- The first connection of the examples. -/
def connA : Conn := { fd := 7, remoteAddr := "127.0.0.1:50001".toList }

/-- The second connection of the examples. -/
def connB : Conn := { fd := 8, remoteAddr := "127.0.0.1:50002".toList }

/-- The user that `handleClient` builds for the name alice on `connA`. -/
def userAlice : User := { ID := "127.0.0.1:50001".toList, Name := "alice".toList }

/-- Alice is registered and active on `connA`. -/
def aliceOnline : Server :=
  { clients := [(connA, some userAlice)],
    redis := [("alice".toList, "127.0.0.1:50001".toList)],
    sent := [], published := [], closed := [] }

/-- The error text of a Redis command while the registry is unreachable. -/
def redisDown : Str := "dial tcp 127.0.0.1:6379: connect: connection refused".toList

/-- A turn that delivers the line `data` while every Redis command fails. -/
def downTurn (data : Str) : Turn :=
  { data := data, err := false, get := some redisDown, put := some redisDown, order := [] }

/-- A read that fails at end of input while the registry is unreachable, so
that the `HDel` of the teardown fails. -/
def eofDownTurn : Turn :=
  { data := [], err := true, get := some redisDown, put := some redisDown, order := [] }

/-- The line `/exit` while the registry is unreachable. -/
def exitDownTurn : Turn := downTurn "/exit\n".toList

/-- Two connections are accepted and both submit `alice`; the lookup of the
second runs before the write of the first.  Every Redis command is answered. -/
def raceSchedule : List Event :=
  [ Event.accept connA,
    Event.accept connB,
    Event.step connA (lineTurn "alice\n".toList),
    Event.step connB (lineTurn "alice\n".toList),
    Event.step connA (lineTurn []),
    Event.step connB (lineTurn []),
    Event.step connA (lineTurn []),
    Event.step connB (lineTurn []) ]

/-- A session on `conn` that submits the read of `t` in state `s` is accepted:
the name loop ends in this iteration with a user of the trimmed name, without
any reply, and lines 114-117 put the connection into the table and write the
welcome line. -/
def Accepted (s : Server) (conn : Conn) (t : Turn) : Prop :=
  ∃ user : User,
    (nameIter s conn t).2 = some user ∧
    user.Name = TrimSpace t.data ∧ user.ID = conn.remoteAddr ∧
    (nameIter s conn t).1.sent = s.sent ∧
    mapGet (enterActive (nameIter s conn t).1 conn user).clients conn = some (some user) ∧
    (enterActive (nameIter s conn t).1 conn user).sent =
      s.sent ++ [(conn, welcome user.Name user.ID ++ ['\n'])]

/-- The empty name is registered with a non-empty id. -/
def EmptyNameTaken (s : Server) : Prop :=
  ∃ id : Str, mapGet s.redis [] = some id ∧ id ≠ []

/-- The two lines the loop writes when it finds the name taken. -/
def takenReply (conn : Conn) : List (Conn × Str) :=
  [(conn, errNameTaken ++ ['\n']), (conn, promptName ++ ['\n'])]

/-- Alice and bob are registered, and nobody else. -/
def twoOnline : Server :=
  { clients := [], redis := [("alice".toList, "127.0.0.1:50001".toList),
                             ("bob".toList, "127.0.0.1:50002".toList)],
    sent := [], published := [], closed := [] }

/-- The reply line as the claim words it: the names separated by single spaces. -/
def onlineLineSeparated (names : List Str) : Str :=
  "Online users: ".toList ++ List.intercalate " ".toList names

/-- The reply line the loop of `listUsers` builds: every name followed by a space. -/
def onlineLineTerminated (names : List Str) : Str :=
  "Online users: ".toList ++ (names.map (fun name => name ++ " ".toList)).flatten

/-- Alice on `connA`, bob on `connB`. -/
def twoActive : Server :=
  { clients := [(connA, some userAlice),
                (connB, some { ID := "127.0.0.1:50002".toList, Name := "bob".toList })],
    redis := [("alice".toList, "127.0.0.1:50001".toList),
              ("bob".toList, "127.0.0.1:50002".toList)],
    sent := [], published := [], closed := [] }

/-! ## Theorems -/

theorem checkName_some (s s1 : Server) (conn : Conn) (data : Str) (fault : Fault)
    (user : User) (h : checkName s conn data fault = (s1, some user)) : s1 = s := by
  simp only [checkName] at h
  by_cases hc : (HGet s.redis (TrimSpace data) fault).2 = none ∧
      (HGet s.redis (TrimSpace data) fault).1 ≠ []
  · rw [if_pos hc] at h
    cases h
  · rw [if_neg hc] at h
    cases h
    rfl

/-- The atomic steps of a session compose to the iterations of the source: a
name-loop iteration that continues is one step; one that ends the loop is the
lookup step, the write step and the step of lines 114-117. -/
theorem sessionStep_nameIter (s : Server) (conn : Conn) (t : Turn) :
    ((nameIter s conn t).2 = none →
      sessionStep s conn Pc.awaitingName t = ((nameIter s conn t).1, Pc.awaitingName)) ∧
    (∀ user, (nameIter s conn t).2 = some user →
      sessionStep s conn Pc.awaitingName t = (s, Pc.reserving user) ∧
      sessionStep s conn (Pc.reserving user) t = ((nameIter s conn t).1, Pc.entering user) ∧
      sessionStep (nameIter s conn t).1 conn (Pc.entering user) t
        = (enterActive (nameIter s conn t).1 conn user, Pc.active user)) := by
  cases hck : checkName s conn t.data t.get with
  | mk s1 ou =>
    cases ou with
    | none => simp [nameIter, sessionStep, hck]
    | some u =>
      have hs := checkName_some s s1 conn t.data t.get u hck
      subst hs
      constructor
      · intro h
        simp [nameIter, hck] at h
      · intro user h
        simp only [nameIter, hck] at h
        cases h
        simp [nameIter, sessionStep, hck]

theorem checkName_taken (s : Server) (conn : Conn) (data id : Str)
    (hreg : mapGet s.redis (TrimSpace data) = some id) (hid : id ≠ []) :
    checkName s conn data none =
      (sendPrompt (sendPrompt s conn errNameTaken) conn promptName, none) := by
  simp [checkName, HGet, hreg, hid]

/-- C3: when the registry answers the lookup and maps the trimmed name to a
non-empty id, one iteration of the name loop writes the name-taken line and
the prompt, continues the loop, and leaves registry and table as they were. -/
theorem C3_name_taken_reprompts (s : Server) (conn : Conn) (t : Turn) (name id : Str)
    (hname : TrimSpace t.data = name) (hreg : mapGet s.redis name = some id)
    (hid : id ≠ []) (hget : t.get = none) :
    (nameIter s conn t).2 = none ∧
    sessionStep s conn Pc.awaitingName t = ((nameIter s conn t).1, Pc.awaitingName) ∧
    (nameIter s conn t).1.sent =
      s.sent ++ [(conn, "Error: Name already taken, please choose another.\n".toList),
                 (conn, "Enter your name: \n".toList)] ∧
    (nameIter s conn t).1.redis = s.redis ∧
    (nameIter s conn t).1.clients = s.clients ∧
    mapGet (nameIter s conn t).1.redis name = some id := by
  subst hname
  have h := checkName_taken s conn t.data id hreg hid
  simp [nameIter, sessionStep, hget, h, sendPrompt, hreg, errNameTaken, promptName]

theorem C3_name_taken_reprompts_witness :
    (TrimSpace (lineTurn " alice\r\n".toList).data = "alice".toList ∧
      mapGet aliceOnline.redis "alice".toList = some "127.0.0.1:50001".toList) ∧
    (nameIter aliceOnline connB (lineTurn " alice\r\n".toList)).2 = none ∧
    (nameIter aliceOnline connB (lineTurn " alice\r\n".toList)).1.redis = aliceOnline.redis :=
  have h := C3_name_taken_reprompts aliceOnline connB (lineTurn " alice\r\n".toList)
    "alice".toList "127.0.0.1:50001".toList (by decide) (by decide) (by decide) rfl
  ⟨⟨by decide, by decide⟩, h.1, h.2.2.2.1⟩

/-! ### Map lemmas -/

theorem mapDel_cons_eq {κ ν : Type} [DecidableEq κ] (m : List (κ × ν)) (k : κ) (v : ν) :
    mapDel ((k, v) :: m) k = mapDel m k := by
  simp [mapDel, List.filter_cons]

theorem mapDel_cons_ne {κ ν : Type} [DecidableEq κ] (m : List (κ × ν)) (k k1 : κ) (v : ν)
    (h : k1 ≠ k) : mapDel ((k1, v) :: m) k = (k1, v) :: mapDel m k := by
  simp [mapDel, List.filter_cons, h]

theorem mapGet_cons_eq {κ ν : Type} [DecidableEq κ] (m : List (κ × ν)) (k : κ) (v : ν) :
    mapGet ((k, v) :: m) k = some v := by
  simp [mapGet]

theorem mapGet_cons_ne {κ ν : Type} [DecidableEq κ] (m : List (κ × ν)) (k k1 : κ) (v : ν)
    (h : k1 ≠ k) : mapGet ((k1, v) :: m) k = mapGet m k := by
  simp [mapGet, h]

theorem mapGet_mapDel_self {κ ν : Type} [DecidableEq κ] (m : List (κ × ν)) (k : κ) :
    mapGet (mapDel m k) k = none := by
  induction m with
  | nil => rfl
  | cons e m ih =>
    obtain ⟨k1, v⟩ := e
    by_cases h : k1 = k
    · subst h
      rw [mapDel_cons_eq]
      exact ih
    · rw [mapDel_cons_ne m k k1 v h, mapGet_cons_ne _ k k1 v h]
      exact ih

theorem mapDel_of_mapGet_none {κ ν : Type} [DecidableEq κ] (m : List (κ × ν)) (k : κ)
    (h : mapGet m k = none) : mapDel m k = m := by
  induction m with
  | nil => rfl
  | cons e m ih =>
    obtain ⟨k1, v⟩ := e
    by_cases hk : k1 = k
    · subst hk
      rw [mapGet_cons_eq] at h
      cases h
    · rw [mapGet_cons_ne m k k1 v hk] at h
      rw [mapDel_cons_ne m k k1 v hk, ih h]

theorem mapGet_mapDel_ne {κ ν : Type} [DecidableEq κ] (m : List (κ × ν)) (k k1 : κ)
    (h : k1 ≠ k) : mapGet (mapDel m k) k1 = mapGet m k1 := by
  induction m with
  | nil => rfl
  | cons e m ih =>
    obtain ⟨k2, v⟩ := e
    by_cases hk : k2 = k
    · subst hk
      rw [mapDel_cons_eq, mapGet_cons_ne m k1 k2 v (fun e => h e.symm)]
      exact ih
    · rw [mapDel_cons_ne m k k2 v hk]
      by_cases hk1 : k2 = k1
      · subst hk1
        rw [mapGet_cons_eq, mapGet_cons_eq]
      · rw [mapGet_cons_ne _ k1 k2 v hk1, mapGet_cons_ne _ k1 k2 v hk1]
        exact ih

theorem mapGet_mapSet_self {κ ν : Type} [DecidableEq κ] (m : List (κ × ν)) (k : κ) (v : ν) :
    mapGet (mapSet m k v) k = some v := by
  simp [mapSet, mapGet]

theorem mapGet_mapSet_ne {κ ν : Type} [DecidableEq κ] (m : List (κ × ν)) (k k1 : κ) (v : ν)
    (h : k1 ≠ k) : mapGet (mapSet m k v) k1 = mapGet m k1 := by
  have h2 : ¬ k = k1 := fun e => h e.symm
  simp [mapSet, mapGet, h2, mapGet_mapDel_ne m k k1 h]

theorem mem_mapKeys_iff {κ ν : Type} [DecidableEq κ] (m : List (κ × ν)) (k : κ) :
    k ∈ mapKeys m ↔ (mapGet m k).isSome := by
  induction m with
  | nil => simp [mapKeys, mapGet]
  | cons e m ih =>
    obtain ⟨k1, v⟩ := e
    by_cases h : k1 = k
    · subst h
      simp [mapKeys, mapGet_cons_eq]
    · rw [mapGet_cons_ne m k k1 v h, ← ih]
      have h2 : ¬ k = k1 := fun e => h e.symm
      simp [mapKeys, h2]

/-! ### C2: a failed lookup -/

/-- When the lookup fails with an error other than `redis.Nil`, the iteration
takes the accepting branch: it builds the user and goes on to register it. -/
theorem nameIter_lookup_error (s : Server) (conn : Conn) (t : Turn) (text : Str)
    (hget : t.get = some text) :
    nameIter s conn t =
      (addClientToRedis s { ID := conn.remoteAddr, Name := TrimSpace t.data } t.put,
        some { ID := conn.remoteAddr, Name := TrimSpace t.data }) := by
  simp [nameIter, checkName, HGet, hget, generateUserID]

/-- C2 (the code departs from the claim): with alice active and the registry
unreachable, a second connection submitting `alice` is not re-prompted; the
iteration yields a user named alice for it, it is inserted into the table next
to the first alice and the only line written to it after the prompt is the
welcome line. -/
theorem C2_failed_lookup_is_accepted :
    (nameIter aliceOnline connB (downTurn "alice\n".toList)).2
      = some { ID := "127.0.0.1:50002".toList, Name := "alice".toList } ∧
    (Sys.run { server := aliceOnline, sessions := [(connA, Pc.active userAlice)] }
        [ Event.accept connB,
          Event.step connB (downTurn "alice\n".toList),
          Event.step connB (downTurn []),
          Event.step connB (downTurn []) ])
      = { server :=
            { clients := [(connB, some { ID := "127.0.0.1:50002".toList,
                                         Name := "alice".toList }),
                          (connA, some userAlice)],
              redis := [("alice".toList, "127.0.0.1:50001".toList)],
              sent := [(connB, "Enter your name: \n".toList),
                       (connB, "Welcome, alice!-127.0.0.1:50002\n".toList)],
              published := [], closed := [] },
          sessions := [(connB, Pc.active { ID := "127.0.0.1:50002".toList,
                                           Name := "alice".toList }),
                       (connA, Pc.active userAlice)] } := by
  decide

/-! ### C5: the message loop -/

theorem listUsers_published (s : Server) (conn : Conn) (fault : Fault) (order : List Str) :
    (listUsers s conn fault order).published = s.published := by
  unfold listUsers HGetAll
  cases fault with
  | none =>
    by_cases h : s.redis.length = 0 <;> simp [h, sendPrompt]
  | some text => simp [sendPrompt]

theorem removeClient_published (s : Server) (conn : Conn) (fault : Fault) :
    (removeClient s conn fault).published = s.published := by
  unfold removeClient
  cases h : mapGet s.clients conn with
  | none => rfl
  | some ou => cases ou <;> simp [removeClientFromRedis]

theorem handleCommand_published (s : Server) (conn : Conn) (command : Str) (get put : Fault)
    (order : List Str) :
    (handleCommand s conn command get put order).published = s.published := by
  unfold handleCommand
  split
  · exact listUsers_published s conn get order
  · split
    · simp [connClose, removeClient_published, sendPrompt]
    · simp [sendPrompt]

/-- C5: for a line read without error in the message loop: an empty trimmed
line changes nothing; a non-empty trimmed line that does not start with `/`
adds exactly one publication, on `chat_messages`, of ID-Name: content and a
newline, and writes nothing; a line starting with `/` is handed to
`handleCommand` and nothing is published.  The loop goes on in each case. -/
theorem C5_message_loop_line (s : Server) (conn : Conn) (user : User) (t : Turn)
    (hread : t.err = false) :
    (TrimSpace t.data = [] → activeIter s conn user t = (s, true)) ∧
    (TrimSpace t.data ≠ [] → HasPrefix (TrimSpace t.data) "/".toList = false →
      activeIter s conn user t =
        ({ s with published := s.published ++
            [("chat_messages".toList,
              user.ID ++ "-".toList ++ user.Name ++ ": ".toList ++ TrimSpace t.data
                ++ "\n".toList)] }, true)) ∧
    (HasPrefix (TrimSpace t.data) "/".toList = true →
      activeIter s conn user t =
        (handleCommand s conn (TrimSpace t.data) t.get t.put t.order, true) ∧
      (activeIter s conn user t).1.published = s.published) := by
  refine ⟨?_, ?_, ?_⟩
  · intro h
    simp [activeIter, hread, h]
  · intro h1 h2
    have h3 : HasPrefix (TrimSpace t.data) ['/'] = false := h2
    simp [activeIter, hread, h1, h3, chatTopic, formattedMessage]
  · intro h
    have hne : TrimSpace t.data ≠ [] := by
      intro h0
      rw [h0] at h
      exact absurd h (by decide)
    have h3 : HasPrefix (TrimSpace t.data) ['/'] = true := h
    simp [activeIter, hread, hne, h3, handleCommand_published]

theorem C5_message_loop_line_witness :
    activeIter aliceOnline connA userAlice (lineTurn "  \n".toList) = (aliceOnline, true) ∧
    activeIter aliceOnline connA userAlice (lineTurn "hello\n".toList) =
      ({ aliceOnline with published :=
          [("chat_messages".toList, "127.0.0.1:50001-alice: hello\n".toList)] }, true) ∧
    (activeIter aliceOnline connA userAlice (lineTurn "/nope\n".toList)).1.published = [] :=
  ⟨(C5_message_loop_line aliceOnline connA userAlice (lineTurn "  \n".toList) rfl).1
      (by decide),
   (C5_message_loop_line aliceOnline connA userAlice (lineTurn "hello\n".toList) rfl).2.1
      (by decide) (by decide),
   ((C5_message_loop_line aliceOnline connA userAlice (lineTurn "/nope\n".toList) rfl).2.2
      (by decide)).2⟩

/-! ### C8: removal -/

/-- C8: `removeClient` twice on a connection gives the state `removeClient`
once gives, whatever the fate of the two `HDel` commands; on a connection
without table entry it changes nothing; and `removeClientFromRedis` for a name
without registry entry changes nothing.  Both functions return no error value:
their result is the state alone. -/
theorem C8_removal_idempotent (s : Server) (conn : Conn) (user : User) (f1 f2 : Fault) :
    removeClient (removeClient s conn f1) conn f2 = removeClient s conn f1 ∧
    (mapGet s.clients conn = none → removeClient s conn f1 = s) ∧
    (mapGet s.redis user.Name = none → removeClientFromRedis s user f1 = s) := by
  refine ⟨?_, ?_, ?_⟩
  · have key : mapGet (removeClient s conn f1).clients conn = none := by
      unfold removeClient
      cases h : mapGet s.clients conn with
      | none => simpa using h
      | some ou => cases ou <;> simp [removeClientFromRedis, mapGet_mapDel_self]
    generalize removeClient s conn f1 = s1 at key
    simp [removeClient, key]
  · intro h
    simp [removeClient, h]
  · intro h
    cases f1 with
    | none => simp [removeClientFromRedis, HDel, mapDel_of_mapGet_none _ _ h]
    | some text => simp [removeClientFromRedis, HDel]

theorem C8_removal_idempotent_witness :
    removeClient (removeClient aliceOnline connA none) connA none
        = removeClient aliceOnline connA none ∧
    removeClient aliceOnline connB none = aliceOnline ∧
    removeClientFromRedis aliceOnline { ID := [], Name := "bob".toList } none = aliceOnline :=
  have h := C8_removal_idempotent aliceOnline connB { ID := [], Name := "bob".toList } none none
  ⟨(C8_removal_idempotent aliceOnline connA userAlice none none).1,
   h.2.1 (by decide), h.2.2 (by decide)⟩

/-! ### C1: two sessions negotiating the same name -/

/-- C1 (the code departs from the claim): the name is reserved by a lookup
(`HGet`, line 96) followed by a separate write (`HSet`, line 198).  From the
initial state, with the registry empty and both lookups running before either
write, both sessions become active under the name alice: the table holds two
distinct connections with that name, each was sent the welcome line and
neither the name-taken line, so uniqueness of names fails in a reachable state. -/
theorem C1_lookup_then_write_admits_duplicate :
    (Sys.run Sys.init raceSchedule).sessions =
      [ (connB, Pc.active { ID := "127.0.0.1:50002".toList, Name := "alice".toList }),
        (connA, Pc.active { ID := "127.0.0.1:50001".toList, Name := "alice".toList }) ] ∧
    (Sys.run Sys.init raceSchedule).server.clients =
      [ (connB, some { ID := "127.0.0.1:50002".toList, Name := "alice".toList }),
        (connA, some { ID := "127.0.0.1:50001".toList, Name := "alice".toList }) ] ∧
    (Sys.run Sys.init raceSchedule).server.redis =
      [ ("alice".toList, "127.0.0.1:50002".toList) ] ∧
    writesTo (Sys.run Sys.init raceSchedule).server connA =
      [ "Enter your name: \n".toList, "Welcome, alice!-127.0.0.1:50001\n".toList ] ∧
    writesTo (Sys.run Sys.init raceSchedule).server connB =
      [ "Enter your name: \n".toList, "Welcome, alice!-127.0.0.1:50002\n".toList ] ∧
    ¬ (∀ sched : List Event, UniqueNames (Sys.run Sys.init sched).server) := by
  refine ⟨by decide, by decide, by decide, by decide, by decide, ?_⟩
  intro h
  exact h raceSchedule connA connB
    { ID := "127.0.0.1:50001".toList, Name := "alice".toList }
    { ID := "127.0.0.1:50002".toList, Name := "alice".toList }
    (by decide) (by decide) (by decide) rfl

/-! ### C4: the name is released when the session ends -/

theorem accepted_of_absent (s : Server) (conn : Conn) (t : Turn)
    (h : mapGet s.redis (TrimSpace t.data) = none) : Accepted s conn t := by
  have hc : checkName s conn t.data t.get =
      (s, some { ID := conn.remoteAddr, Name := TrimSpace t.data }) := by
    cases hg : t.get with
    | none => simp [checkName, HGet, h, generateUserID]
    | some text => simp [checkName, HGet, generateUserID]
  refine ⟨{ ID := conn.remoteAddr, Name := TrimSpace t.data }, ?_, rfl, rfl, ?_, ?_, ?_⟩
  · simp [nameIter, hc]
  · simp [nameIter, hc, addClientToRedis]
  · simp [enterActive, sendPrompt, mapGet_mapSet_self]
  · simp [nameIter, hc, addClientToRedis, enterActive, sendPrompt]

theorem removeClient_releases (s : Server) (conn : Conn) (user : User)
    (hact : mapGet s.clients conn = some (some user)) :
    mapGet (removeClient s conn none).clients conn = none ∧
    mapGet (removeClient s conn none).redis user.Name = none := by
  simp [removeClient, hact, removeClientFromRedis, HDel, mapGet_mapDel_self]

theorem removeClient_of_absent (s : Server) (conn : Conn) (fault : Fault)
    (h : mapGet s.clients conn = none) : removeClient s conn fault = s := by
  simp [removeClient, h]

theorem listUsers_state (s : Server) (conn : Conn) (fault : Fault) (order : List Str) :
    (listUsers s conn fault order).clients = s.clients ∧
    (listUsers s conn fault order).redis = s.redis := by
  unfold listUsers HGetAll
  cases fault with
  | none =>
    by_cases h : s.redis.length = 0 <;> simp [h, sendPrompt]
  | some text => simp [sendPrompt]

theorem handleCommand_of_absent (s : Server) (conn : Conn) (command : Str) (get put : Fault)
    (order : List Str) (h : mapGet s.clients conn = none) :
    (handleCommand s conn command get put order).clients = s.clients ∧
    (handleCommand s conn command get put order).redis = s.redis := by
  unfold handleCommand
  split
  · exact listUsers_state s conn get order
  · split
    · have h1 : mapGet (sendPrompt s conn "You have exited the chat.".toList).clients conn
          = none := h
      rw [removeClient_of_absent _ conn put h1]
      exact ⟨rfl, rfl⟩
    · exact ⟨rfl, rfl⟩

/-- Once the connection has left the table, no step of its session in the
message loop changes table or registry, the session stays in the message loop
or is terminated, and a failed read terminates it. -/
theorem sessionStep_of_absent (s : Server) (conn : Conn) (user : User) (pc : Pc) (t : Turn)
    (h : mapGet s.clients conn = none) (hpc : pc = Pc.active user ∨ pc = Pc.terminated) :
    (sessionStep s conn pc t).1.clients = s.clients ∧
    (sessionStep s conn pc t).1.redis = s.redis ∧
    ((sessionStep s conn pc t).2 = Pc.active user ∨
      (sessionStep s conn pc t).2 = Pc.terminated) ∧
    (t.err = true → (sessionStep s conn pc t).2 = Pc.terminated) ∧
    (pc = Pc.terminated → (sessionStep s conn pc t).2 = Pc.terminated) := by
  rcases hpc with hpc | hpc
  · subst hpc
    by_cases herr : t.err = true
    · have h1 : mapGet (connClose s conn).clients conn = none := h
      simp only [sessionStep, activeIter, herr, if_true, deferred]
      rw [removeClient_of_absent _ conn t.put h1]
      simp [connClose]
    · have herr2 : t.err = false := by simpa using herr
      by_cases h0 : TrimSpace t.data = []
      · simp [sessionStep, activeIter, herr2, h0]
      · by_cases hp : HasPrefix (TrimSpace t.data) ['/'] = true
        · have hc := handleCommand_of_absent s conn (TrimSpace t.data) t.get t.put t.order h
          simp [sessionStep, activeIter, herr2, h0, hp, hc.1, hc.2]
        · simp [sessionStep, activeIter, herr2, h0, hp]
  · subst hpc
    simp [sessionStep]

theorem sessionRun_of_absent (conn : Conn) (user : User) (ts : List Turn) :
    ∀ (s : Server) (pc : Pc), mapGet s.clients conn = none →
      (pc = Pc.active user ∨ pc = Pc.terminated) →
      (sessionRun s conn pc ts).1.clients = s.clients ∧
      (sessionRun s conn pc ts).1.redis = s.redis ∧
      ((sessionRun s conn pc ts).2 = Pc.active user ∨
        (sessionRun s conn pc ts).2 = Pc.terminated) ∧
      ((∃ t2 ∈ ts, t2.err = true) → (sessionRun s conn pc ts).2 = Pc.terminated) ∧
      (pc = Pc.terminated → (sessionRun s conn pc ts).2 = Pc.terminated) := by
  induction ts with
  | nil =>
    intro s pc _ hpc
    refine ⟨rfl, rfl, hpc, ?_, fun h => h⟩
    rintro ⟨t2, ht2, _⟩
    cases ht2
  | cons t ts ih =>
    intro s pc h hpc
    obtain ⟨h1, h2, h3, h4, h5⟩ := sessionStep_of_absent s conn user pc t h hpc
    have hrun : sessionRun s conn pc (t :: ts)
        = sessionRun (sessionStep s conn pc t).1 conn (sessionStep s conn pc t).2 ts := rfl
    obtain ⟨i1, i2, i3, i4, i5⟩ :=
      ih (sessionStep s conn pc t).1 (sessionStep s conn pc t).2 (by rw [h1]; exact h) h3
    rw [hrun]
    refine ⟨i1.trans h1, i2.trans h2, i3, ?_, fun hp => i5 (h5 hp)⟩
    rintro ⟨t2, ht2, herr⟩
    rcases List.mem_cons.mp ht2 with e | hmem
    · subst e
      exact i5 (h4 herr)
    · exact i4 ⟨t2, hmem, herr⟩

/-- C4 as stated fails: the teardown deletes the table entry whether or not
`HDel` reached the registry.  With alice active on `connA` and the registry
unreachable when the read fails (or when `/exit` is served), the session ends
with the table entry gone and alice still registered; a new session that then
submits alice is sent the name-taken line and the prompt and is not accepted. -/
theorem C4_failed_hdel_keeps_name :
    sessionStep aliceOnline connA (Pc.active userAlice) eofDownTurn =
      ({ clients := [], redis := [("alice".toList, "127.0.0.1:50001".toList)],
         sent := [], published := [], closed := [connA] }, Pc.terminated) ∧
    nameIter (sessionStep aliceOnline connA (Pc.active userAlice) eofDownTurn).1 connB
        (lineTurn "alice\n".toList) =
      ({ clients := [], redis := [("alice".toList, "127.0.0.1:50001".toList)],
         sent := [(connB, "Error: Name already taken, please choose another.\n".toList),
                  (connB, "Enter your name: \n".toList)],
         published := [], closed := [connA] }, none) ∧
    ¬ Accepted (sessionStep aliceOnline connA (Pc.active userAlice) eofDownTurn).1 connB
        (lineTurn "alice\n".toList) ∧
    (sessionRun aliceOnline connA (Pc.active userAlice) [exitDownTurn, eofTurn]) =
      ({ clients := [], redis := [("alice".toList, "127.0.0.1:50001".toList)],
         sent := [(connA, "You have exited the chat.\n".toList)],
         published := [], closed := [connA, connA] }, Pc.terminated) ∧
    ¬ Accepted (sessionRun aliceOnline connA (Pc.active userAlice)
        [exitDownTurn, eofTurn]).1 connB (lineTurn "alice\n".toList) := by
  refine ⟨by decide, by decide, ?_, by decide, ?_⟩
  · rintro ⟨user, h, _⟩
    have h0 : (nameIter (sessionStep aliceOnline connA (Pc.active userAlice) eofDownTurn).1
        connB (lineTurn "alice\n".toList)).2 = none := by decide
    rw [h0] at h
    cases h
  · rintro ⟨user, h, _⟩
    have h0 : (nameIter (sessionRun aliceOnline connA (Pc.active userAlice)
        [exitDownTurn, eofTurn]).1 connB (lineTurn "alice\n".toList)).2 = none := by decide
    rw [h0] at h
    cases h

/-- C4, amended: let `conn` be in the table with `user`, and let the `HDel` of
the teardown be answered by the registry.  (a) When the read of the message
loop fails, the session terminates and afterwards the table has no entry for
`conn` and the registry none for the name.  (b) When the line is `/exit`, the
same holds right after the command and the connection is closed; the session
is still in its loop, and over every sequence of further reads (lines still
buffered, then the failing read) table and registry stay as the command left
them, and the session is terminated once a read has failed.  In all these
states every session that submits that name is accepted. -/
theorem C4_name_released_on_termination (s : Server) (conn : Conn) (user : User)
    (t : Turn) (hact : mapGet s.clients conn = some (some user)) (hput : t.put = none) :
    (t.err = true →
      (sessionStep s conn (Pc.active user) t).2 = Pc.terminated ∧
      mapGet (sessionStep s conn (Pc.active user) t).1.clients conn = none ∧
      mapGet (sessionStep s conn (Pc.active user) t).1.redis user.Name = none ∧
      ∀ (c2 : Conn) (t3 : Turn), TrimSpace t3.data = user.Name →
        Accepted (sessionStep s conn (Pc.active user) t).1 c2 t3) ∧
    (t.err = false → TrimSpace t.data = "/exit".toList →
      (sessionStep s conn (Pc.active user) t).2 = Pc.active user ∧
      conn ∈ (sessionStep s conn (Pc.active user) t).1.closed ∧
      mapGet (sessionStep s conn (Pc.active user) t).1.clients conn = none ∧
      mapGet (sessionStep s conn (Pc.active user) t).1.redis user.Name = none ∧
      ∀ ts : List Turn,
        ((∃ t2 ∈ ts, t2.err = true) →
          (sessionRun (sessionStep s conn (Pc.active user) t).1 conn (Pc.active user) ts).2
            = Pc.terminated) ∧
        (sessionRun (sessionStep s conn (Pc.active user) t).1 conn (Pc.active user) ts).1.clients
          = (sessionStep s conn (Pc.active user) t).1.clients ∧
        (sessionRun (sessionStep s conn (Pc.active user) t).1 conn (Pc.active user) ts).1.redis
          = (sessionStep s conn (Pc.active user) t).1.redis ∧
        mapGet (sessionRun (sessionStep s conn (Pc.active user) t).1 conn
          (Pc.active user) ts).1.clients conn = none ∧
        mapGet (sessionRun (sessionStep s conn (Pc.active user) t).1 conn
          (Pc.active user) ts).1.redis user.Name = none ∧
        ∀ (c2 : Conn) (t3 : Turn), TrimSpace t3.data = user.Name →
          Accepted (sessionRun (sessionStep s conn (Pc.active user) t).1 conn
            (Pc.active user) ts).1 c2 t3) := by
  constructor
  · intro herr
    have hstep : sessionStep s conn (Pc.active user) t =
        (removeClient (connClose s conn) conn none, Pc.terminated) := by
      simp [sessionStep, activeIter, herr, deferred, hput]
    have hrel := removeClient_releases (connClose s conn) conn user hact
    rw [hstep]
    refine ⟨rfl, hrel.1, hrel.2, ?_⟩
    intro c2 t3 h3
    exact accepted_of_absent _ c2 t3 (by rw [h3]; exact hrel.2)
  · intro herr hexit
    have hcmd : sessionStep s conn (Pc.active user) t =
        (connClose (removeClient (sendPrompt s conn "You have exited the chat.".toList)
          conn none) conn, Pc.active user) := by
      have h1 : HasPrefix "/exit".toList "/".toList = true := by decide
      have h2 : ("/exit".toList : Str) ≠ [] := by decide
      have h3 : ¬ ("/exit".toList : Str) = "/online".toList := by decide
      simp only [sessionStep, activeIter, herr, hexit, h1, h2, handleCommand, h3, hput]
      simp
    have hrel := removeClient_releases (sendPrompt s conn "You have exited the chat.".toList)
      conn user hact
    have habs : mapGet (connClose (removeClient
        (sendPrompt s conn "You have exited the chat.".toList) conn none) conn).clients
        conn = none := hrel.1
    have hreg : mapGet (connClose (removeClient
        (sendPrompt s conn "You have exited the chat.".toList) conn none) conn).redis
        user.Name = none := hrel.2
    rw [hcmd]
    refine ⟨rfl, ?_, habs, hreg, ?_⟩
    · simp [connClose]
    · intro ts
      obtain ⟨r1, r2, _, r4, _⟩ := sessionRun_of_absent conn user ts _ (Pc.active user) habs
        (Or.inl rfl)
      refine ⟨r4, r1, r2, by rw [r1]; exact habs, by rw [r2]; exact hreg, ?_⟩
      intro c2 t3 h3
      exact accepted_of_absent _ c2 t3 (by rw [h3, r2]; exact hreg)

theorem C4_name_released_on_termination_witness :
    (mapGet aliceOnline.clients connA = some (some userAlice) ∧
      TrimSpace (lineTurn "/exit\n".toList).data = "/exit".toList) ∧
    (mapGet (sessionStep aliceOnline connA (Pc.active userAlice) eofTurn).1.redis
        "alice".toList = none ∧
      Accepted (sessionStep aliceOnline connA (Pc.active userAlice) eofTurn).1 connB
        (lineTurn "alice\n".toList)) ∧
    (mapGet (sessionStep aliceOnline connA (Pc.active userAlice)
        (lineTurn "/exit\n".toList)).1.redis "alice".toList = none ∧
      (sessionRun (sessionStep aliceOnline connA (Pc.active userAlice)
        (lineTurn "/exit\n".toList)).1 connA (Pc.active userAlice)
        [lineTurn "late\n".toList, eofTurn]).2 = Pc.terminated ∧
      Accepted (sessionRun (sessionStep aliceOnline connA (Pc.active userAlice)
        (lineTurn "/exit\n".toList)).1 connA (Pc.active userAlice)
        [lineTurn "late\n".toList, eofTurn]).1 connB (lineTurn "alice\n".toList)) :=
  have ha := (C4_name_released_on_termination aliceOnline connA userAlice eofTurn
    (by decide) rfl).1 rfl
  have hb := (C4_name_released_on_termination aliceOnline connA userAlice
    (lineTurn "/exit\n".toList) (by decide) rfl).2 rfl (by decide)
  have hc := hb.2.2.2.2 [lineTurn "late\n".toList, eofTurn]
  ⟨⟨by decide, by decide⟩,
   ⟨ha.2.2.1, ha.2.2.2 connB (lineTurn "alice\n".toList) (by decide)⟩,
   ⟨hb.2.2.2.1, hc.1 ⟨eofTurn, by decide, rfl⟩,
    hc.2.2.2.2.2 connB (lineTurn "alice\n".toList) (by decide)⟩⟩

/-- After `/exit` the session is still in its loop: a line that was already
buffered is read and published although the connection has left the table. -/
theorem exit_then_buffered_line :
    sessionRun aliceOnline connA (Pc.active userAlice)
        [lineTurn "/exit\n".toList, lineTurn "late\n".toList] =
      ({ clients := [], redis := [],
         sent := [(connA, "You have exited the chat.\n".toList)],
         published := [("chat_messages".toList, "127.0.0.1:50001-alice: late\n".toList)],
         closed := [connA] }, Pc.active userAlice) := by
  decide

/-! ### C10: the name loop at end of input -/

theorem trimSpace_nil : TrimSpace [] = [] := rfl

theorem nameIter_eof_taken (s : Server) (conn : Conn) (h : EmptyNameTaken s) :
    nameIter s conn eofTurn = ({ s with sent := s.sent ++ takenReply conn }, none) := by
  obtain ⟨id, hreg, hid⟩ := h
  have hc := checkName_taken s conn [] id (by rw [trimSpace_nil]; exact hreg) hid
  simp [nameIter, eofTurn, hc, sendPrompt, takenReply]

theorem nameIter_eof_free (s : Server) (conn : Conn) (h : ¬ EmptyNameTaken s) :
    nameIter s conn eofTurn =
      ({ s with redis := mapSet s.redis [] conn.remoteAddr },
        some { ID := conn.remoteAddr, Name := [] }) := by
  have hc : checkName s conn [] none = (s, some { ID := conn.remoteAddr, Name := [] }) := by
    cases hreg : mapGet s.redis [] with
    | none => simp [checkName, HGet, trimSpace_nil, hreg, generateUserID]
    | some id =>
      have hid : id = [] := by
        by_contra hne
        exact h ⟨id, hreg, hne⟩
      simp [checkName, HGet, trimSpace_nil, hreg, generateUserID, hid]
  simp [nameIter, eofTurn, hc, addClientToRedis, HSet]

theorem nameLoop_eof_taken (conn : Conn) (n : Nat) :
    ∀ s : Server, EmptyNameTaken s →
      nameLoop s conn (List.replicate n eofTurn) =
        ({ s with sent := s.sent ++ (List.replicate n (takenReply conn)).flatten }, none) := by
  induction n with
  | zero => intro s _; simp [nameLoop]
  | succ n ih =>
    intro s h
    have h1 : EmptyNameTaken { s with sent := s.sent ++ takenReply conn } := h
    simp only [List.replicate_succ, nameLoop, nameIter_eof_taken s conn h]
    rw [ih _ h1]
    simp [List.append_assoc]

/-- C10: at end of input every read of the name loop yields the empty string,
so the submitted name is the empty name.  With the registry answering, the
loop ends (for some number of such reads) exactly when the empty name is not
registered with a non-empty id.  In that case it ends at the first read: the
registry maps the empty name to the session's id, and lines 114-117 insert the
connection into the table and write the welcome line.  When the empty name is
registered with a non-empty id, any number of iterations leaves the loop
running with registry and table unchanged, having written only the name-taken
line and the prompt once per iteration. -/
theorem C10_name_loop_at_eof (s : Server) (conn : Conn) :
    ((∃ n, (nameLoop s conn (List.replicate n eofTurn)).2 ≠ none) ↔ ¬ EmptyNameTaken s) ∧
    (¬ EmptyNameTaken s → ∀ n,
      nameLoop s conn (List.replicate (n + 1) eofTurn) =
        ({ s with redis := mapSet s.redis [] conn.remoteAddr },
          some { ID := conn.remoteAddr, Name := [] }) ∧
      mapGet (nameLoop s conn (List.replicate (n + 1) eofTurn)).1.redis []
        = some conn.remoteAddr ∧
      mapGet (enterActive (nameLoop s conn (List.replicate (n + 1) eofTurn)).1 conn
        { ID := conn.remoteAddr, Name := [] }).clients conn
        = some (some { ID := conn.remoteAddr, Name := [] }) ∧
      (enterActive (nameLoop s conn (List.replicate (n + 1) eofTurn)).1 conn
        { ID := conn.remoteAddr, Name := [] }).sent
        = s.sent ++ [(conn, "Welcome, !-".toList ++ conn.remoteAddr ++ "\n".toList)]) ∧
    (EmptyNameTaken s → ∀ n,
      (nameLoop s conn (List.replicate n eofTurn)).2 = none ∧
      (nameLoop s conn (List.replicate n eofTurn)).1.redis = s.redis ∧
      (nameLoop s conn (List.replicate n eofTurn)).1.clients = s.clients ∧
      (nameLoop s conn (List.replicate n eofTurn)).1.sent =
        s.sent ++ (List.replicate n
          [(conn, "Error: Name already taken, please choose another.\n".toList),
           (conn, "Enter your name: \n".toList)]).flatten) := by
  have hfree : ¬ EmptyNameTaken s → ∀ n,
      nameLoop s conn (List.replicate (n + 1) eofTurn) =
        ({ s with redis := mapSet s.redis [] conn.remoteAddr },
          some { ID := conn.remoteAddr, Name := [] }) := by
    intro h n
    simp only [List.replicate_succ, nameLoop, nameIter_eof_free s conn h]
  refine ⟨⟨?_, ?_⟩, ?_, ?_⟩
  · rintro ⟨n, hn⟩ htaken
    rw [nameLoop_eof_taken conn n s htaken] at hn
    exact hn rfl
  · intro h
    exact ⟨1, by rw [hfree h 0]; simp⟩
  · intro h n
    rw [hfree h n]
    refine ⟨rfl, ?_, ?_, ?_⟩
    · simp [mapGet_mapSet_self]
    · simp [enterActive, sendPrompt, mapGet_mapSet_self]
    · simp [enterActive, sendPrompt, welcome]
  · intro h n
    rw [nameLoop_eof_taken conn n s h]
    refine ⟨rfl, rfl, rfl, ?_⟩
    simp [takenReply, errNameTaken, promptName]

theorem C10_name_loop_at_eof_witness :
    (¬ EmptyNameTaken aliceOnline ∧
      EmptyNameTaken { aliceOnline with redis := [([], "127.0.0.1:50001".toList)] }) ∧
    (nameLoop aliceOnline connB (List.replicate 3 eofTurn)).2
      = some { ID := "127.0.0.1:50002".toList, Name := [] } ∧
    (nameLoop { aliceOnline with redis := [([], "127.0.0.1:50001".toList)] } connB
      (List.replicate 3 eofTurn)).2 = none :=
  have hfree : ¬ EmptyNameTaken aliceOnline := by
    rintro ⟨id, h, _⟩
    have h0 : mapGet aliceOnline.redis ([] : Str) = none := by decide
    rw [h0] at h
    cases h
  have htaken : EmptyNameTaken { aliceOnline with redis := [([], "127.0.0.1:50001".toList)] } :=
    ⟨"127.0.0.1:50001".toList, by decide, by decide⟩
  ⟨⟨hfree, htaken⟩,
   by rw [((C10_name_loop_at_eof aliceOnline connB).2.1 hfree 2).1]; rfl,
   ((C10_name_loop_at_eof { aliceOnline with redis := [([], "127.0.0.1:50001".toList)] }
      connB).2.2 htaken 3).1⟩

/-! ### C6: `/online` -/

theorem userList_foldl (names : List Str) :
    ∀ acc : Str, names.foldl (fun acc name => acc ++ (name ++ " ".toList)) acc
      = acc ++ (names.map (fun name => name ++ " ".toList)).flatten := by
  induction names with
  | nil => intro acc; simp
  | cons a rest ih =>
    intro acc
    rw [List.foldl_cons, ih, List.map_cons, List.flatten_cons, List.append_assoc]

/-- C6 as stated fails: with exactly alice and bob registered the reply is
`Online users: alice bob ` or `Online users: bob alice `, with a space after
the last name, for the two iteration orders; in neither order is it the names
separated by single spaces. -/
theorem C6_reply_ends_with_space :
    (listUsers twoOnline connA none ["alice".toList, "bob".toList]).sent
      = [(connA, "Online users: alice bob \n".toList)] ∧
    (listUsers twoOnline connA none ["bob".toList, "alice".toList]).sent
      = [(connA, "Online users: bob alice \n".toList)] ∧
    ¬ (∃ order : List Str, order.Perm (mapKeys twoOnline.redis) ∧
        ((listUsers twoOnline connA none order).sent
            = [(connA, "Online users: alice bob\n".toList)] ∨
         (listUsers twoOnline connA none order).sent
            = [(connA, "Online users: bob alice\n".toList)])) ∧
    ¬ (∀ order : List Str, order.Perm (mapKeys twoOnline.redis) →
        (listUsers twoOnline connA none order).sent
          = [(connA, onlineLineSeparated order ++ ['\n'])]) := by
  have hperm : ∀ order : List Str, order.Perm (mapKeys twoOnline.redis) →
      order = ["alice".toList, "bob".toList] ∨ order = ["bob".toList, "alice".toList] := by
    intro order h
    have hlen := h.length_eq
    have ha : "alice".toList ∈ order := h.symm.subset (by decide)
    have hb : "bob".toList ∈ order := h.symm.subset (by decide)
    match order, hlen, ha, hb with
    | [x, y], _, ha, hb =>
      simp only [List.mem_cons, List.mem_singleton, List.not_mem_nil, or_false] at ha hb
      rcases ha with ha | ha <;> rcases hb with hb | hb
      · rw [← ha] at hb; exact absurd hb (by decide)
      · left; rw [← ha, ← hb]
      · right; rw [← ha, ← hb]
      · rw [← ha] at hb; exact absurd hb (by decide)
  refine ⟨by decide, by decide, ?_, ?_⟩
  · rintro ⟨order, h, hor⟩
    rcases hperm order h with rfl | rfl
    · rcases hor with h1 | h1 <;> exact absurd h1 (by decide)
    · rcases hor with h1 | h1 <;> exact absurd h1 (by decide)
  · intro h
    exact absurd (h ["alice".toList, "bob".toList] (by decide)) (by decide)

/-- C6, amended: with `HGetAll` answered, `listUsers` writes the one line
`No users online.` when the registry is empty; otherwise it writes one line,
`Online users: ` followed by every name that `range` yields, each followed by
one space (the last one too).  When `range` yields the registered names, each
once, in some order, these are the registered names, each once.  Registry,
table and publications are unchanged. -/
theorem C6_online_reply (s : Server) (conn : Conn) (order : List Str) :
    (s.redis = [] →
      listUsers s conn none order =
        { s with sent := s.sent ++ [(conn, "No users online.\n".toList)] }) ∧
    (s.redis ≠ [] →
      listUsers s conn none order =
        { s with sent := s.sent ++ [(conn, onlineLineTerminated order ++ "\n".toList)] }) ∧
    (order.Perm (mapKeys s.redis) → (mapKeys s.redis).Nodup →
      order.Nodup ∧ ∀ name, name ∈ order ↔ (mapGet s.redis name).isSome) ∧
    (listUsers s conn none order).redis = s.redis ∧
    (listUsers s conn none order).clients = s.clients ∧
    (listUsers s conn none order).published = s.published := by
  refine ⟨?_, ?_, ?_, ?_, ?_, listUsers_published s conn none order⟩
  · intro h
    simp [listUsers, HGetAll, h, sendPrompt]
  · intro h
    have hlen : ¬ s.redis.length = 0 := by simpa using h
    simp only [listUsers, HGetAll, sendPrompt, onlineLineTerminated]
    rw [if_neg hlen, userList_foldl]
    simp
  · intro hperm hnodup
    refine ⟨hperm.nodup_iff.mpr hnodup, ?_⟩
    intro name
    rw [hperm.mem_iff]
    exact mem_mapKeys_iff s.redis name
  · by_cases h : s.redis = [] <;> simp [listUsers, HGetAll, h, sendPrompt]
  · by_cases h : s.redis = [] <;> simp [listUsers, HGetAll, h, sendPrompt]

theorem C6_online_reply_witness :
    (listUsers Sys.init.server connA none []).sent = [(connA, "No users online.\n".toList)] ∧
    (listUsers twoOnline connA none ["bob".toList, "alice".toList]).sent
      = [(connA, "Online users: bob alice \n".toList)] ∧
    (["bob".toList, "alice".toList] : List Str).Nodup :=
  have h0 := (C6_online_reply Sys.init.server connA []).1 rfl
  have h2 := (C6_online_reply twoOnline connA ["bob".toList, "alice".toList]).2.1 (by decide)
  have h3 := (C6_online_reply twoOnline connA ["bob".toList, "alice".toList]).2.2.1
    (by decide) (by decide)
  ⟨by rw [h0]; rfl, by rw [h2]; decide, h3.1⟩

/-! ### C7: the fan-out -/

theorem broadcastPayload_sent (payload : Str) (order : List Conn) :
    ∀ s : Server, broadcastPayload s payload order =
      { s with sent := s.sent ++ order.map (fun client => (client, payload)) } := by
  induction order with
  | nil => intro s; simp [broadcastPayload]
  | cons c rest ih =>
    intro s
    have h := ih { s with sent := s.sent ++ [(c, payload)] }
    simp only [broadcastPayload, List.foldl_cons] at h ⊢
    rw [h]
    simp [List.append_assoc]

theorem writesTo_append (s : Server) (extra : List (Conn × Str)) (conn : Conn) :
    writesTo { s with sent := s.sent ++ extra } conn =
      writesTo s conn ++ (extra.filter (fun e => decide (e.1 = conn))).map Prod.snd := by
  simp [writesTo, List.filter_append]

theorem filter_order (payload : Str) (conn : Conn) (order : List Conn) :
    ((order.map (fun client => (client, payload))).filter
      (fun e => decide (e.1 = conn))).map Prod.snd = List.replicate (order.count conn) payload := by
  induction order with
  | nil => rfl
  | cons c rest ih =>
    by_cases h : c = conn
    · subst h
      simp only [List.map_cons, List.filter_cons, decide_True, if_true, List.count_cons_self,
        List.replicate_succ]
      rw [ih]
    · have h2 : ¬ (c == conn) = true := by simpa using h
      simp only [List.map_cons, List.filter_cons, h, decide_False, Bool.false_eq_true, if_false,
        List.count_cons, h2]
      rw [ih]
      simp

theorem writesTo_broadcastPayload (s : Server) (payload : Str) (order : List Conn)
    (conn : Conn) (hnodup : (mapKeys s.clients).Nodup)
    (horder : order.Perm (mapKeys s.clients)) :
    writesTo (broadcastPayload s payload order) conn =
      writesTo s conn ++ (if conn ∈ mapKeys s.clients then [payload] else []) := by
  rw [broadcastPayload_sent, writesTo_append, filter_order, horder.count_eq]
  by_cases h : conn ∈ mapKeys s.clients
  · rw [List.count_eq_one_of_mem hnodup h, if_pos h]
    rfl
  · rw [List.count_eq_zero_of_not_mem h, if_neg h]
    rfl

theorem broadcastPayload_rest (s : Server) (payload : Str) (order : List Conn) :
    (broadcastPayload s payload order).clients = s.clients ∧
    (broadcastPayload s payload order).redis = s.redis ∧
    (broadcastPayload s payload order).published = s.published ∧
    (broadcastPayload s payload order).closed = s.closed := by
  rw [broadcastPayload_sent]
  exact ⟨rfl, rfl, rfl, rfl⟩

/-- C7: let the table be a map (every connection at most once) that does not
change while the payloads arrive, and let each pass of `range clients` yield
the connections of the table, each once, in any order.  Then
`broadcastMessages` appends to the writes of every connection of the table
exactly the payloads, unmodified, each once and in the order received (so the
bytes written are their concatenation), whoever published them, and it writes
nothing to a connection that is not in the table.  Table, registry and
publications are unchanged. -/
theorem C7_fan_out (msgs : List (Str × List Conn)) :
    ∀ s : Server, (mapKeys s.clients).Nodup →
      (∀ m ∈ msgs, m.2.Perm (mapKeys s.clients)) →
      (∀ conn, conn ∈ mapKeys s.clients →
        writesTo (broadcastMessages s msgs) conn = writesTo s conn ++ msgs.map Prod.fst ∧
        (writesTo (broadcastMessages s msgs) conn).flatten
          = (writesTo s conn).flatten ++ (msgs.map Prod.fst).flatten) ∧
      (∀ conn, conn ∉ mapKeys s.clients →
        writesTo (broadcastMessages s msgs) conn = writesTo s conn) ∧
      (broadcastMessages s msgs).clients = s.clients ∧
      (broadcastMessages s msgs).redis = s.redis ∧
      (broadcastMessages s msgs).published = s.published := by
  induction msgs with
  | nil =>
    intro s _ _
    simp [broadcastMessages]
  | cons m rest ih =>
    intro s hnodup horder
    have hm : m.2.Perm (mapKeys s.clients) := horder m (List.mem_cons_self m rest)
    have hrest := broadcastPayload_rest s m.1 m.2
    have hstep : broadcastMessages s (m :: rest)
        = broadcastMessages (broadcastPayload s m.1 m.2) rest := by
      simp [broadcastMessages]
    have ih1 := ih (broadcastPayload s m.1 m.2) (by rw [hrest.1]; exact hnodup)
      (by
        intro m1 hm1
        rw [hrest.1]
        exact horder m1 (List.mem_cons_of_mem m hm1))
    rw [hstep]
    rw [hrest.1] at ih1
    obtain ⟨hin, hout, hc, hr, hp⟩ := ih1
    refine ⟨?_, ?_, ?_, ?_, ?_⟩
    · intro conn hconn
      have h1 := (hin conn hconn).1
      rw [writesTo_broadcastPayload s m.1 m.2 conn hnodup hm, if_pos hconn] at h1
      have h2 : writesTo (broadcastMessages (broadcastPayload s m.1 m.2) rest) conn
          = writesTo s conn ++ (m :: rest).map Prod.fst := by
        rw [h1]
        simp [List.append_assoc]
      refine ⟨h2, ?_⟩
      rw [h2, List.flatten_append]
    · intro conn hconn
      rw [hout conn hconn, writesTo_broadcastPayload s m.1 m.2 conn hnodup hm, if_neg hconn]
      simp
    · exact hc
    · rw [hr, hrest.2.1]
    · rw [hp, hrest.2.2.1]

theorem C7_fan_out_witness :
    ((mapKeys twoActive.clients).Nodup ∧ connA ∈ mapKeys twoActive.clients) ∧
    writesTo (broadcastMessages twoActive
        [("127.0.0.1:50001-alice: hi\n".toList, [connB, connA]),
         ("127.0.0.1:50002-bob: ho\n".toList, [connA, connB])]) connA
      = ["127.0.0.1:50001-alice: hi\n".toList, "127.0.0.1:50002-bob: ho\n".toList] ∧
    writesTo (broadcastMessages twoActive
        [("127.0.0.1:50001-alice: hi\n".toList, [connB, connA]),
         ("127.0.0.1:50002-bob: ho\n".toList, [connA, connB])])
        { fd := 9, remoteAddr := "127.0.0.1:50003".toList } = [] :=
  have h := C7_fan_out
    [("127.0.0.1:50001-alice: hi\n".toList, [connB, connA]),
     ("127.0.0.1:50002-bob: ho\n".toList, [connA, connB])] twoActive (by decide) (by decide)
  ⟨⟨by decide, by decide⟩, (h.1 connA (by decide)).1,
   h.2.1 { fd := 9, remoteAddr := "127.0.0.1:50003".toList } (by decide)⟩

/-! ### C9: the client's filter of its own lines -/

/-- C9 (the code departs from the claim): the client takes its id from the
welcome line as the piece after the first `-` (`parts[1]`, line 58).  For the
name `mary-ann` on the connection with id `127.0.0.1:50001` the server's
welcome line is `Welcome, mary-ann!-127.0.0.1:50001`; after it the client's
`clientID` is `ann!`, not its id, and its own broadcast
`127.0.0.1:50001-mary-ann: hi` is not suppressed: it is printed, as `-> mary`. -/
theorem C9_dash_in_name_breaks_filter :
    (enterActive Sys.init.server connA
        { ID := generateUserID connA, Name := "mary-ann".toList }).sent
      = [(connA, "Welcome, mary-ann!-127.0.0.1:50001\n".toList)] ∧
    clientRecv Client.init "Welcome, mary-ann!-127.0.0.1:50001\n".toList
      = some { clientID := "ann!".toList,
               stdout := ["Welcome, mary\n".toList, ":$ ".toList] } ∧
    formattedMessage "127.0.0.1:50001".toList "mary-ann".toList "hi".toList
      = "127.0.0.1:50001-mary-ann: hi\n".toList ∧
    clientRecvAll Client.init
        ["Welcome, mary-ann!-127.0.0.1:50001\n".toList,
         "127.0.0.1:50001-mary-ann: hi\n".toList]
      = some { clientID := "ann!".toList,
               stdout := ["Welcome, mary\n".toList, ":$ ".toList,
                          "-> mary\n".toList, ":$ ".toList] } ∧
    ¬ Suppressed { clientID := "ann!".toList,
                   stdout := ["Welcome, mary\n".toList, ":$ ".toList] }
        "127.0.0.1:50001-mary-ann: hi\n".toList := by
  decide

/-! ### The client's filter on names and ids without a dash -/

theorem dropWhile_append_keep (f : Char → Bool) (y : Str) (hy : y.dropWhile f = y) :
    ∀ x : Str, (x ++ y).dropWhile f = x.dropWhile f ++ y := by
  intro x
  induction x with
  | nil => simpa using hy
  | cons a x ih =>
    by_cases h : f a = true
    · simp [List.dropWhile_cons, h, ih]
    · simp [List.dropWhile_cons, h]

/-- `TrimSpace` leaves a text that starts and ends with a non-space character,
and trims what follows it on the right only. -/
theorem trimSpace_append (a b : Char) (r r1 q : Str) (p : Str) (hp : p = a :: r)
    (hpr : p.reverse = b :: r1) (ha : isSpace a = false) (hb : isSpace b = false) :
    TrimSpace (p ++ q) = p ++ (q.reverse.dropWhile isSpace).reverse := by
  have h1 : (p ++ q).dropWhile isSpace = p ++ q := by
    rw [hp]
    simp [List.dropWhile_cons, ha]
  have h2 : p.reverse.dropWhile isSpace = p.reverse := by
    rw [hpr]
    simp [List.dropWhile_cons, hb]
  unfold TrimSpace
  rw [h1, List.reverse_append, dropWhile_append_keep isSpace p.reverse h2, List.reverse_append,
    List.reverse_reverse]

theorem dropWhile_of_all_false (f : Char → Bool) (l : Str) (h : ∀ c ∈ l, f c = false) :
    l.dropWhile f = l := by
  cases l with
  | nil => rfl
  | cons a r => simp [List.dropWhile_cons, h a (List.mem_cons_self a r)]

theorem split_no_sep (sep : Char) (a : Str) (h : sep ∉ a) : Split a sep = [a] := by
  induction a with
  | nil => rfl
  | cons c a ih =>
    have hc : ¬ c = sep := fun e => h (by rw [e]; exact List.mem_cons_self sep a)
    have ha : sep ∉ a := fun e => h (List.mem_cons_of_mem c e)
    simp [Split, hc, ih ha]

theorem split_append_sep (sep : Char) (a b : Str) (h : sep ∉ a) :
    Split (a ++ sep :: b) sep = a :: Split b sep := by
  induction a with
  | nil => simp [Split]
  | cons c a ih =>
    have hc : ¬ c = sep := fun e => h (by rw [e]; exact List.mem_cons_self sep a)
    have ha : sep ∉ a := fun e => h (List.mem_cons_of_mem c e)
    simp [Split, hc, ih ha]

theorem hasPrefix_append_dash (w : Str) (hw : '-' ∉ w) :
    ∀ (x r : Str), HasPrefix (x ++ '-' :: r) w = HasPrefix x w ∨ w = [] := by
  induction w with
  | nil => intro x r; right; rfl
  | cons c w ih =>
    intro x r
    left
    have hc : ¬ '-' = c := fun e => hw (by rw [e]; exact List.mem_cons_self c w)
    have hw1 : '-' ∉ w := fun e => hw (List.mem_cons_of_mem c e)
    cases x with
    | nil => simp [HasPrefix, hc]
    | cons a x =>
      rcases ih hw1 x r with h | h
      · simp [HasPrefix, h]
      · subst h
        cases x <;> simp [HasPrefix]

theorem hasPrefix_dash_iff (r : Str) :
    ∀ (x y : Str), '-' ∉ x → '-' ∉ y →
      (HasPrefix (x ++ '-' :: r) (y ++ ['-']) = true ↔ x = y) := by
  intro x
  induction x with
  | nil =>
    intro y _ hy
    cases y with
    | nil => simp [HasPrefix]
    | cons c y =>
      have hc : ¬ '-' = c := fun e => hy (by rw [e]; exact List.mem_cons_self c y)
      simp [HasPrefix, hc]
  | cons a x ih =>
    intro y hx hy
    have ha : ¬ a = '-' := fun e => hx (by rw [← e]; exact List.mem_cons_self a x)
    have hx1 : '-' ∉ x := fun e => hx (List.mem_cons_of_mem a e)
    cases y with
    | nil => simp [HasPrefix, ha]
    | cons c y =>
      have hy1 : '-' ∉ y := fun e => hy (List.mem_cons_of_mem c e)
      have := ih y hx1 hy1
      simp only [List.cons_append, HasPrefix, Bool.and_eq_true, beq_iff_eq,
        List.cons.injEq, List.append_eq, this]

/-- For a name and ids without a dash (and ids without white space, and a
sender id that does not start with `Welcome`): after the welcome line the
client's `clientID` is its id, and a chat line is suppressed exactly when its
sender id is the client's id; a line of another sender is printed. -/
theorem clientRecv_filters_dash_free (cl : Client) (name id sid sname content : Str)
    (hname : '-' ∉ name) (hid : '-' ∉ id) (hsid : '-' ∉ sid)
    (hidsp : ∀ c ∈ id, isSpace c = false) (hsidsp : ∀ c ∈ sid, isSpace c = false)
    (hw : HasPrefix sid "Welcome".toList = false) :
    clientRecv cl (welcome name id ++ ['\n']) =
      some { clientID := id,
             stdout := cl.stdout ++ ["Welcome, ".toList ++ name ++ "!\n".toList, ":$ ".toList] } ∧
    (Suppressed { clientID := id, stdout := cl.stdout } (formattedMessage sid sname content)
      ↔ sid = id) ∧
    (sid ≠ id → ∃ p1, clientRecv { clientID := id, stdout := cl.stdout }
        (formattedMessage sid sname content) =
      some { clientID := id,
             stdout := cl.stdout ++ ["-> ".toList ++ p1 ++ ['\n'], ":$ ".toList] }) := by
  have hwel : TrimSpace (welcome name id ++ ['\n']) = ("Welcome, ".toList ++ name ++ ['!']) ++ '-' :: id := by
    have hq : ((id ++ ['\n']).reverse.dropWhile isSpace).reverse = id := by
      have h1 : isSpace '\n' = true := by decide
      rw [List.reverse_append]
      simp only [List.reverse_cons, List.reverse_nil, List.nil_append, List.singleton_append,
        List.dropWhile_cons, h1, if_true]
      rw [dropWhile_of_all_false isSpace id.reverse (fun c hc => hidsp c (List.mem_reverse.mp hc)),
        List.reverse_reverse]
    have := trimSpace_append 'W' '-' ("elcome, ".toList ++ name ++ ['!', '-'])
      (("Welcome, ".toList ++ name ++ ['!']).reverse) (id ++ ['\n'])
      ("Welcome, ".toList ++ name ++ ['!', '-']) (by simp) (by simp) (by decide) (by decide)
    rw [hq] at this
    have e1 : welcome name id ++ ['\n'] = ("Welcome, ".toList ++ name ++ ['!', '-']) ++ (id ++ ['\n']) := by
      simp [welcome]
    rw [e1, this]
    simp
  have hP : '-' ∉ "Welcome, ".toList ++ name ++ ['!'] := by
    intro h
    rcases List.mem_append.mp h with h | h
    · rcases List.mem_append.mp h with h | h
      · exact absurd h (by decide)
      · exact hname h
    · exact absurd h (by decide)
  have hsplit : Split (("Welcome, ".toList ++ name ++ ['!']) ++ '-' :: id) '-'
      = ["Welcome, ".toList ++ name ++ ['!'], id] := by
    rw [split_append_sep '-' _ id hP, split_no_sep '-' id hid]
  have hpre : HasPrefix (("Welcome, ".toList ++ name ++ ['!']) ++ '-' :: id) "Welcome".toList
      = true := by
    simp [HasPrefix]
  have hchat : ∃ R, TrimSpace (formattedMessage sid sname content) = sid ++ '-' :: R := by
    have e1 : formattedMessage sid sname content
        = (sid ++ ['-']) ++ (sname ++ ": ".toList ++ content ++ ['\n']) := by
      simp [formattedMessage]
    refine ⟨((sname ++ ": ".toList ++ content ++ ['\n']).reverse.dropWhile isSpace).reverse, ?_⟩
    rw [e1]
    cases sid with
    | nil =>
      rw [trimSpace_append '-' '-' [] [] _ ([] ++ ['-']) rfl (by simp) (by decide) (by decide)]
      simp
    | cons c s1 =>
      rw [trimSpace_append c '-' (s1 ++ ['-']) (c :: s1).reverse _ ((c :: s1) ++ ['-']) rfl
        (by simp) (hsidsp c (List.mem_cons_self c s1)) (by decide)]
      simp
  obtain ⟨R, hR⟩ := hchat
  have hnotw : HasPrefix (sid ++ '-' :: R) ['W', 'e', 'l', 'c', 'o', 'm', 'e'] = false := by
    rcases hasPrefix_append_dash "Welcome".toList (by decide) sid R with h | h
    · exact h.trans hw
    · exact absurd h (by decide)
  have hiff := hasPrefix_dash_iff R sid id hsid hid
  have hparts : ∃ p1 rest, Split (sid ++ '-' :: R) '-' = sid :: p1 :: rest := by
    rw [split_append_sep '-' sid R hsid]
    cases hs : Split R '-' with
    | nil =>
      exfalso
      cases R with
      | nil => simp [Split] at hs
      | cons c R1 =>
        by_cases hc : c = '-'
        · simp [Split, hc] at hs
        · simp only [Split, hc, if_false] at hs
          split at hs <;> cases hs
    | cons p1 rest => exact ⟨p1, rest, rfl⟩
  obtain ⟨p1, rest, hparts⟩ := hparts
  have hne : sid ≠ id → HasPrefix (sid ++ '-' :: R) (id ++ ['-']) = false := by
    intro hs
    cases h : HasPrefix (sid ++ '-' :: R) (id ++ ['-']) with
    | false => rfl
    | true => exact absurd (hiff.mp h) hs
  refine ⟨?_, ?_, ?_⟩
  · simp only [clientRecv, hwel, hpre, if_true, hsplit]
    simp
  · by_cases hs : sid = id
    · have hp := hiff.mpr hs
      subst hs
      simp [Suppressed, clientRecv, hR, hnotw, hp]
    · simp [Suppressed, clientRecv, hR, hnotw, hne hs, hs, hparts]
  · intro hs
    refine ⟨p1, ?_⟩
    simp [clientRecv, hR, hnotw, hne hs, hparts]
end GoChat
